import Mathlib

/-!
Verification of the package-ledger and reconciliation engine of
`src/scripts/python/pacwrap_cli.py` (the `pacwrap` CLI).

The Python program stores its ledger as a JSON document
`{packages: {name -> entry-dict}, metadata: {last_full_update_date}}` and
manipulates it through the `Database` class; the staleness policy lives in
`Pacwrap._check_update_policy`, external-tool output parsing in
`SystemInterface.get_explicitly_installed_packages`, and the user-facing
operations in the `Pacwrap.cmd_*` methods.

The embedding below models JSON values by the flat universe `PVal`
(covering exactly the shapes the program reads and writes), Python dicts by
association lists with in-place update (`aset`), and each operation as a
pure function; wall-clock stamps (`datetime.now().strftime(...)`) are
threaded as explicit `now : String` parameters, and date parsing
(`strptime` / `fromisoformat`) as explicit function parameters or
pre-parsed arguments, since rendering and parsing dates are the only
things the code does with the ambient clock.
-/

namespace Pacwrap

/-- JSON-ish values stored in package-entry fields and used by the
program: JSON null, booleans, strings, integers, arrays of strings
(dependencies/groups/provides), and arrays of `{version, date}` objects
(`update_history`, modelled as pairs). -/
inductive PVal where
  | null
  | pb (b : Bool)
  | ps (s : String)
  | pi (n : Int)
  | plist (l : List String)
  | phist (h : List (String × String))
deriving DecidableEq

/-- Python truthiness (`if value:`) of a `PVal`. -/
def PVal.truthy : PVal → Bool
  | .null => false
  | .pb b => b
  | .ps s => s ≠ ""
  | .pi n => n ≠ 0
  | .plist l => !l.isEmpty
  | .phist h => !h.isEmpty

/-- Numeric view of a value: Python treats `bool` as a subtype of `int`,
so `True == 1` holds. -/
def PVal.toIntQ : PVal → Option Int
  | .pb b => some (if b then 1 else 0)
  | .pi n => some n
  | _ => none

/-- Python `==` on the represented values: numeric cross-type equality for
bool/int, structural equality otherwise (heterogeneous comparisons are
`False`, never an error). -/
def pyEq (a b : PVal) : Bool :=
  match a.toIntQ, b.toIntQ with
  | some x, some y => x = y
  | _, _ => a = b

/-- A Python dict with string keys, as an association list (unique keys in
all dicts the program builds; insertion order preserved, as in Python). -/
abbrev Dict := List (String × PVal)

/-- Dict lookup, Python `d.get(k)` / `d[k]`. -/
def alookup {β : Type} : List (String × β) → String → Option β
  | [], _ => none
  | (k', v) :: rest, k => if k' = k then some v else alookup rest k

/-- Dict assignment `d[k] = v`: replaces the value in place if the key is
present (preserving position, as Python dicts do), else appends. -/
def aset {β : Type} : List (String × β) → String → β → List (String × β)
  | [], k, v => [(k, v)]
  | (k', v') :: rest, k, v =>
    if k' = k then (k, v) :: rest else (k', v') :: aset rest k v

/-- Python `d.get(k, default)`. -/
def dgetD (d : Dict) (k : String) (v : PVal) : PVal := (alookup d k).getD v

/-- Python `k in d`. -/
def dhas (d : Dict) (k : String) : Bool := (alookup d k).isSome

/-- Python `d.pop(k, None)`: removes the key if present. -/
def dpop (d : Dict) (k : String) : Dict := d.filter (fun p => p.1 != k)

/-! ## Policy Evaluator (`Pacwrap._check_update_policy`, lines 486-510)

The method reads `metadata.last_full_update_date`, returns immediately when
it is absent or falsy, tries two date formats (human, then ISO), and
otherwise classifies the integer day difference.  The stored-timestamp
state is passed pre-parsed: `none` = no (falsy) timestamp recorded,
`some none` = stored but unparsable in both formats, `some (some d)` =
parsed, with `d` the integer day difference `(now - last_date).days`. -/

def checkUpdatePolicy (parsed : Option (Option Int)) : Bool × String :=
  match parsed with
  | none => (true, "No previous update found")
  | some none => (true, "Invalid last update date format")
  | some (some d) =>
    if d ≥ 90 then (true, "Critical: " ++ toString d ++ " days since last update")
    else if d ≥ 30 then (false, "Warning: " ++ toString d ++ " days since last update")
    else if d ≥ 7 then (false, "Recommended: " ++ toString d ++ " days since last update")
    else (false, "Recent: " ++ toString d ++ " days since last update")

/-! ## Record Store (`Database`)

The ledger in memory is `{"packages": {name -> entry-dict},
"metadata": {...}}`; we model it by `DB`.  Every mutating method ends in
`self._save()`, a full-file rewrite, so in this pure model the returned
`DB` value is exactly what is persisted. -/

structure DB where
  packages : List (String × Dict)
  metadata : Dict
deriving DecidableEq

/-- A store with no entries and null metadata, as built by `Database._load`
for an absent or unreadable backing file. -/
def emptyDB : DB := ⟨[], [("last_full_update_date", PVal.null)]⟩

/-- The entry-dict literal built by `Database.add_package` for a name not
yet in the store (lines 184-195), field order as in the source; `groups`
and `provides` of `None` are replaced by `[]`, `install_date` falls back
to the current stamp when falsy, `update_history` starts empty. -/
def newEntry (now name : String) (repo deps installed version installDate groups provides : PVal) :
    Dict :=
  [("name", .ps name),
   ("installed", installed),
   ("repo", repo),
   ("dependencies", deps),
   ("groups", if groups = .null then .plist [] else groups),
   ("provides", if provides = .null then .plist [] else provides),
   ("version", version),
   ("install_date", if installDate.truthy then installDate else .ps now),
   ("update_history", .phist []),
   ("last_update_date", .ps now)]

/-- The in-place merge `Database.add_package` performs on an existing
entry (lines 171-182): unconditional overwrite of `installed`, `repo`,
`dependencies`, `groups`, `provides` and the `last_update_date` stamp,
conditional overwrite of `version` and `install_date` when truthy. -/
def upEntry (now : String) (repo deps installed version installDate groups provides : PVal)
    (pkg : Dict) : Dict :=
  let pkg := aset pkg "installed" installed
  let pkg := aset pkg "repo" repo
  let pkg := aset pkg "dependencies" deps
  let pkg := aset pkg "groups" (if groups = .null then .plist [] else groups)
  let pkg := aset pkg "provides" (if provides = .null then .plist [] else provides)
  let pkg := aset pkg "last_update_date" (.ps now)
  let pkg := if version.truthy then aset pkg "version" version else pkg
  if installDate.truthy then aset pkg "install_date" installDate else pkg

/-- Method `Database.add_package(name, repo, dependencies, installed, version,
install_date, groups, provides)` (lines 165-198): upsert keyed on `name`,
then persist. -/
def addPackage (now : String) (db : DB) (name : String)
    (repo deps installed version installDate groups provides : PVal) : DB :=
  match alookup db.packages name with
  | some pkg =>
    let merged := upEntry now repo deps installed version installDate groups provides pkg
    { db with packages := aset db.packages name merged }
  | none =>
    let fresh := newEntry now name repo deps installed version installDate groups provides
    { db with packages := aset db.packages name fresh }

/-- Method `Database.set_installed(name, installed)` (lines 200-206): flips the
flag and stamps the time when the name is present, does nothing at all
otherwise. -/
def setInstalled (now : String) (db : DB) (name : String) (installed : Bool) : DB :=
  match alookup db.packages name with
  | some pkg =>
    let pkg' := aset (aset pkg "installed" (.pb installed)) "last_update_date" (.ps now)
    { db with packages := aset db.packages name pkg' }
  | none => db

/-- Method `Database.add_version_history(name, version)` (lines 208-216): appends
`{version, date-now}` to the entry's `update_history` when the name is
present, does nothing otherwise.  `none` models the exception Python would
raise if a present entry lacked a well-typed `update_history` list. -/
def addVersionHistory (now : String) (db : DB) (name version : String) : Option DB :=
  match alookup db.packages name with
  | some pkg =>
    match alookup pkg "update_history" with
    | some (.phist h) =>
      let pkg' := aset pkg "update_history" (.phist (h ++ [(version, now)]))
      some { db with packages := aset db.packages name pkg' }
    | _ => none
  | none => some db

/-- Method `Database.query_packages(**filters)` (lines 226-237): an entry matches
unless some filter key is present in the entry with a different value;
`pyEq` is Python `==`. -/
def queryPackages (db : DB) (filters : List (String × PVal)) : List (String × Dict) :=
  db.packages.filter fun p =>
    filters.all fun kv =>
      match alookup p.2 kv.1 with
      | some v => pyEq v kv.2
      | none => true

/-- Method `Database.update_metadata(key, value)` (lines 239-248): for the
`last_full_update_date` key a string value is re-rendered through
`datetime.fromisoformat` when that parse succeeds (`isoNorm s = some s'`)
and left as-is on `ValueError` (`isoNorm s = none`); the pair is then
stored and the file saved. -/
def updateMetadata (isoNorm : String → Option String) (db : DB) (key : String) (v : PVal) : DB :=
  let v' := match v with
    | .ps s => if key = "last_full_update_date" then PVal.ps ((isoNorm s).getD s) else .ps s
    | w => w
  { db with metadata := aset db.metadata key v' }

/-- The document produced by `Database.export_data(include_metadata)`
(lines 250-263). -/
structure ExportDoc where
  packages : List (String × Dict)
  metadata : Option Dict
deriving DecidableEq

/-- Method `Database.export_data`: copies every entry, stripping
`update_history` (and omitting metadata) unless `include_metadata`. -/
def exportData (db : DB) (includeMetadata : Bool) : ExportDoc :=
  { packages := db.packages.map fun p =>
      (p.1, if includeMetadata then p.2 else dpop p.2 "update_history"),
    metadata := if includeMetadata then some db.metadata else none }

/-! ## External-tool output parsing
(`SystemInterface.get_explicitly_installed_packages`, lines 395-472)

Dependency / group / provide tokens scraped from `pacman`/helper output
are stripped of version-range decorations by the chain
`tok.split('>=')[0].split('<=')[0].split('=')[0].split('>')[0].split('<')[0]`. -/

/-- Python `s.split(sep)[0]` for a non-empty separator: the prefix of `s`
before the first occurrence of `sep`, or all of `s` when absent. -/
def headBefore (sep : List Char) : List Char → List Char
  | [] => []
  | c :: rest => if sep.isPrefixOf (c :: rest) then [] else c :: headBefore sep rest

/-- The five-way split chain from lines 418-419 / 422-423 / 433-434 /
437-438 / 456-457, applied inside-out in source order
(`>=`, `<=`, `=`, `>`, `<`). -/
def stripChars (s : List Char) : List Char :=
  headBefore ['<'] (headBefore ['>'] (headBefore ['='] (headBefore ['<', '='] (headBefore ['>', '='] s))))

def stripVersionQualifier (s : String) : String := ⟨stripChars s.data⟩

/-- A character that can appear in a stored bare identifier: anything
before the first version-range decoration character. -/
def isBareChar (c : Char) : Bool := (!(c == '=') && !(c == '>')) && !(c == '<')

/-- Python `str.split()` with no argument: split on runs of whitespace,
no empty tokens. -/
def pyWordsAux : List Char → List Char → List String
  | [], acc => if acc.isEmpty then [] else [⟨acc.reverse⟩]
  | c :: cs, acc =>
    if c.isWhitespace then
      if acc.isEmpty then pyWordsAux cs [] else (⟨acc.reverse⟩ : String) :: pyWordsAux cs []
    else pyWordsAux cs (c :: acc)

def pyWords (s : String) : List String := pyWordsAux s.data []

/-- The `Depends On` comprehension (lines 456-457): split the field value
on whitespace, drop `"None"` tokens, strip version qualifiers. -/
def parseDependsField (s : String) : List String :=
  ((pyWords s).filter (fun t => t ≠ "None")).map stripVersionQualifier

/-- The `Groups` / `Provides` comprehensions (e.g. lines 417-419): empty
or `"None"` field values give `[]`, otherwise every whitespace-separated
token is stripped. -/
def parseGroupsField (s : String) : List String :=
  if s ≠ "" && s ≠ "None" then (pyWords s).map stripVersionQualifier else []

/-! ## Reconciler commands (`Pacwrap.cmd_*`) -/

/-- Command `Pacwrap.cmd_uninstall` (lines 610-633), database effect: under
`--dryrun` the external removal is skipped and treated as success;
on success the entry is marked uninstalled (and that write is persisted),
on failure nothing changes. -/
def cmdUninstall (now : String) (dryrun removeOk : Bool) (db : DB) (name : String) : Bool × DB :=
  let success := if dryrun then true else removeOk
  if success then (true, setInstalled now db name false) else (false, db)

/-- Command `Pacwrap.cmd_update` (lines 635-659) over `SystemInterface.update_system`
(lines 375-393): policy gate first (skippable by `--force` or an
interactive "y"), then the system update — which under `--dryrun` only
prints and reports success — and on success the
`metadata.last_full_update_date` stamp via `update_metadata`. -/
def cmdUpdate (isoNorm : String → Option String) (now : String)
    (dryrun force interactive : Bool) (parsedLast : Option (Option Int))
    (confirmYes updateOk : Bool) (db : DB) : Bool × DB :=
  let pol := checkUpdatePolicy parsedLast
  let success := if dryrun then true else updateOk
  let proceed : Bool × DB :=
    if success then (true, updateMetadata isoNorm db "last_full_update_date" (.ps now))
    else (false, db)
  if !force && !pol.1 then
    if !interactive then (true, db)
    else if !confirmYes then (true, db)
    else proceed
  else proceed

/-! ## Import (`Pacwrap.cmd_import`, lines 787-837)

A parsed import file.  The top level must be an object whose `packages`
field is an object (`isinstance(data.get("packages"), dict)`); entry
values inside that object may themselves be arbitrary JSON values, which
is what `IEntry` captures. -/

/-- One value of the `packages` mapping in an import file: a JSON object,
or some other (scalar/array) JSON value. -/
inductive IEntry where
  | dict (d : Dict)
  | scalar (v : PVal)
deriving DecidableEq

/-- The five fields `cmd_import` requires of each entry (line 817). -/
def requiredKeys : List String := ["repo", "installed", "dependencies", "groups", "provides"]

/-- Substring test, Python `needle in haystack` for strings. -/
def subOf (needle : List Char) : List Char → Bool
  | [] => needle.isEmpty
  | c :: t => needle.isPrefixOf (c :: t) || subOf needle t

/-- Python `k in pkg` for an entry value: key lookup for dicts, membership
for lists, substring for strings; `none` models the `TypeError` raised for
numbers, booleans and `None`. -/
def entryHasKey (e : IEntry) (k : String) : Option Bool :=
  match e with
  | .dict d => some (dhas d k)
  | .scalar (.plist l) => some (l.contains k)
  | .scalar (.ps s) => some (subOf k.data s.data)
  | .scalar (.phist _) => some false
  | .scalar _ => none

/-- Python `all(key in pkg for key in [...])`, short-circuiting, with `none`
propagating a raised `TypeError`. -/
def keysIn (e : IEntry) : List String → Option Bool
  | [] => some true
  | k :: ks =>
    match entryHasKey e k with
    | none => none
    | some false => some false
    | some true => keysIn e ks

def checkAllKeys (e : IEntry) : Option Bool := keysIn e requiredKeys

/-- Whether `cmd_import` upserts an entry: all five required keys present
(and testing them raised nothing). -/
def entryRequiredOk (e : IEntry) : Bool := decide (checkAllKeys e = some true)

/-- Whether an import-file entry value is a JSON object. -/
def isDictEntry : IEntry → Bool
  | .dict _ => true
  | .scalar _ => false

/-- The `add_package` call `cmd_import` makes for one accepted entry
(lines 820-829), including the `.get` defaults. -/
def importOne (now : String) (db : DB) (p : String × IEntry) : DB :=
  match p.2 with
  | .dict d =>
    addPackage now db p.1 (dgetD d "repo" (.ps "unknown")) (dgetD d "dependencies" (.plist []))
      (dgetD d "installed" (.pb false)) (dgetD d "version" (.ps ""))
      (dgetD d "install_date" (.ps "")) (dgetD d "groups" (.plist []))
      (dgetD d "provides" (.plist []))
  | .scalar _ => db

/-- The import loop (lines 815-830): skip entries missing a required key
(with a logged warning), upsert the rest counting them; a `TypeError` from
`key in pkg` or an `AttributeError` from `.get` on a non-dict entry
escapes to the `except Exception` handler (line 835), which reports
failure and keeps whatever was already upserted and saved. -/
def importEntries (now : String) : List (String × IEntry) → DB → Nat → Bool × DB × Nat
  | [], db, cnt => (true, db, cnt)
  | p :: rest, db, cnt =>
    match checkAllKeys p.2 with
    | none => (false, db, cnt)
    | some false => importEntries now rest db cnt
    | some true =>
      match p.2 with
      | .dict _ => importEntries now rest (importOne now db p) (cnt + 1)
      | .scalar _ => (false, db, cnt)

/-- Shape of a parsed import file as far as `cmd_import` inspects it. -/
inductive ImportTop where
  | topNonDict
  | noPackages
  | packagesNonDict (v : PVal)
  | packages (entries : List (String × IEntry))
deriving DecidableEq

/-- Command `Pacwrap.cmd_import` past file reading: reject (reported failure, no
mutation) unless the top-level `packages` field exists and is a mapping;
result is (reported success, resulting store, number of imported
entries). -/
def cmdImport (now : String) (db : DB) (t : ImportTop) : Bool × DB × Nat :=
  match t with
  | .packages entries => importEntries now entries db 0
  | _ => (false, db, 0)

/-- The entries of `export_data(include_metadata=False)` as import-file
entries (every exported entry is a JSON object). -/
def iEntriesOfExport (l : List (String × Dict)) : List (String × IEntry) :=
  l.map fun p => (p.1, IEntry.dict p.2)

/-- Export without history, then import the exported document into an
empty store. -/
def roundTripImport (now : String) (db : DB) : Bool × DB × Nat :=
  cmdImport now emptyDB (.packages (iEntriesOfExport (exportData db false).packages))

def isSomePb : Option PVal → Bool
  | some (.pb _) => true
  | _ => false

def isSomePs : Option PVal → Bool
  | some (.ps _) => true
  | _ => false

def isSomePlist : Option PVal → Bool
  | some (.plist _) => true
  | _ => false

def isSomePhist : Option PVal → Bool
  | some (.phist _) => true
  | _ => false

def isSomeNonemptyPs : Option PVal → Bool
  | some (.ps s) => s ≠ ""
  | _ => false

/-- A well-formed stored entry: exactly the shape `add_package` ever
writes — all ten fields present with their expected types, the `name`
field equal to the entry's key, and a non-empty `install_date`. -/
def wfEntry (name : String) (d : Dict) : Bool :=
  decide (alookup d "name" = some (.ps name)) &&
  isSomePb (alookup d "installed") &&
  isSomePs (alookup d "repo") &&
  isSomePlist (alookup d "dependencies") &&
  isSomePlist (alookup d "groups") &&
  isSomePlist (alookup d "provides") &&
  isSomePs (alookup d "version") &&
  isSomeNonemptyPs (alookup d "install_date") &&
  isSomePhist (alookup d "update_history") &&
  isSomePs (alookup d "last_update_date")

/-! ## Loading the store (`Database._load`, lines 113-150)

The parsed backing file, as far as `_load` inspects it.  `isoNorm`
abstracts `datetime.fromisoformat` followed by re-rendering in the human
format: `some s'` when the parse succeeds, `none` for `ValueError`. -/

/-- The `metadata` field of a loaded document. -/
inductive MetaVal where
  | mapping (m : Dict)
  | nonMapping (v : PVal)
deriving DecidableEq

/-- The `packages` field of a loaded document. -/
inductive PkgsVal where
  | mapping (l : List (String × IEntry))
  | nonMapping (v : PVal)
deriving DecidableEq

/-- State of the backing file when `_load` runs: absent, present but not
parseable as JSON (`json.JSONDecodeError`), valid JSON that is not an
object, or a JSON object with optional `packages`/`metadata` fields. -/
inductive LoadedFile where
  | absent
  | unparsable
  | topNonDict
  | topDict (pkgs : Option PkgsVal) (meta : Option MetaVal)
deriving DecidableEq

/-- The raw document `_load` returns (what `Database.data` holds). -/
structure RawDoc where
  pkgs : Option PkgsVal
  meta : Option MetaVal
deriving DecidableEq

/-- The default document `{"packages": {}, "metadata": {"last_full_update_date": None}}`. -/
def defaultDoc : RawDoc :=
  ⟨some (.mapping []), some (.mapping [("last_full_update_date", PVal.null)])⟩

/-- The per-entry date normalization loop body (lines 131-139):
`if "last_update_date" in pkg and pkg["last_update_date"]:` then reparse.
`none` models an exception escaping the `except ValueError` (e.g.
`fromisoformat` on a non-string, or indexing a list with a string). -/
def normEntry (isoNorm : String → Option String) (e : IEntry) : Option IEntry :=
  match e with
  | .dict d =>
    match alookup d "last_update_date" with
    | some v =>
      if v.truthy then
        match v with
        | .ps s => some (.dict (aset d "last_update_date" (.ps ((isoNorm s).getD s))))
        | _ => none
      else some (.dict d)
    | none => some (.dict d)
  | .scalar v =>
    match v with
    | .plist l => if l.contains "last_update_date" then none else some e
    | .ps s => if subOf "last_update_date".data s.data then none else some e
    | .phist _ => some e
    | _ => none

/-- The metadata normalization (lines 140-146); `none` models an
`AttributeError`/`TypeError` escaping `_load`'s `except` clause. -/
def normMeta (isoNorm : String → Option String) : Option MetaVal → Option (Option MetaVal)
  | none => some none
  | some (.nonMapping _) => none
  | some (.mapping m) =>
    match alookup m "last_full_update_date" with
    | some v =>
      if v.truthy then
        match v with
        | .ps s =>
          some (some (.mapping (aset m "last_full_update_date" (.ps ((isoNorm s).getD s)))))
        | _ => none
      else some (some (.mapping m))
    | none => some (some (.mapping m))

def normEntries (isoNorm : String → Option String) :
    List (String × IEntry) → Option (List (String × IEntry))
  | [] => some []
  | p :: rest =>
    match normEntry isoNorm p.2 with
    | none => none
    | some e' => (normEntries isoNorm rest).map (fun l => (p.1, e') :: l)

/-- Method `Database._load`: an absent file is (created and) answered with the
default document; a `json.JSONDecodeError` is caught, logged and answered
with the same empty default; any other exception — e.g. the
`AttributeError` from `data.get(...)` when the file holds a JSON array —
escapes (`none`) and takes the program down. -/
def dbLoad (isoNorm : String → Option String) : LoadedFile → Option RawDoc
  | .absent => some defaultDoc
  | .unparsable => some defaultDoc
  | .topNonDict => none
  | .topDict pkgs meta =>
    match pkgs with
    | some (.nonMapping _) => none
    | none => (normMeta isoNorm meta).map (fun m' => ⟨none, m'⟩)
    | some (.mapping entries) =>
      match normEntries isoNorm entries with
      | none => none
      | some entries' =>
        (normMeta isoNorm meta).map (fun m' => ⟨some (.mapping entries'), m'⟩)

/-! ## Concrete sample data (used by witnesses and counterexamples) -/

def sampleHtop : Dict :=
  [("name", .ps "htop"), ("installed", .pb true), ("repo", .ps "core"),
   ("dependencies", .plist ["ncurses"]), ("groups", .plist []), ("provides", .plist []),
   ("version", .ps "3.2.2"), ("install_date", .ps "Mon 01 Jan 2024 10:00:00 AM"),
   ("update_history", .phist [("3.2.1", "Sun 31 Dec 2023 09:00:00 AM")]),
   ("last_update_date", .ps "Mon 01 Jan 2024 10:00:00 AM")]

def sampleDB : DB := ⟨[("htop", sampleHtop)], [("last_full_update_date", PVal.null)]⟩

def sampleAur : Dict :=
  [("name", .ps "yay-bin"), ("installed", .pb true), ("repo", .ps "aur"),
   ("dependencies", .plist []), ("groups", .plist []), ("provides", .plist ["yay"]),
   ("version", .ps "12.0.5"), ("install_date", .ps "Tue 02 Jan 2024 11:00:00 AM"),
   ("update_history", .phist []),
   ("last_update_date", .ps "Tue 02 Jan 2024 11:00:00 AM")]

def sampleOld : Dict :=
  [("name", .ps "oldpkg"), ("installed", .pb false), ("repo", .ps "aur"),
   ("dependencies", .plist []), ("groups", .plist []), ("provides", .plist []),
   ("version", .ps "0.1"), ("install_date", .ps "Wed 03 Jan 2024 09:00:00 AM"),
   ("update_history", .phist []),
   ("last_update_date", .ps "Wed 03 Jan 2024 09:00:00 AM")]

def queryDB : DB :=
  ⟨[("htop", sampleHtop), ("yay-bin", sampleAur), ("oldpkg", sampleOld)],
   [("last_full_update_date", PVal.null)]⟩

/-- A complete import-file entry. -/
def importFull : Dict :=
  [("repo", .ps "core"), ("installed", .pb true), ("dependencies", .plist []),
   ("groups", .plist []), ("provides", .plist []), ("version", .ps "1.0")]

/-- An import-file entry missing the `groups` field. -/
def importNoGroups : Dict :=
  [("repo", .ps "extra"), ("installed", .pb true), ("dependencies", .plist []),
   ("provides", .plist []), ("version", .ps "2.0")]

/-! # Theorems -/

/-! ## Dict lemmas -/

theorem alookup_aset {β : Type} (l : List (String × β)) (k : String) (v : β)
    (k' : String) :
    alookup (aset l k v) k' = if k' = k then some v else alookup l k' := by
  induction l with
  | nil =>
    by_cases h : k' = k
    · subst h; simp [aset, alookup]
    · simp [aset, alookup, h, Ne.symm h]
  | cons p rest ih =>
    obtain ⟨k₀, v₀⟩ := p
    by_cases h0 : k₀ = k
    · subst h0
      by_cases h : k' = k₀
      · subst h; simp [aset, alookup]
      · simp [aset, alookup, h, Ne.symm h]
    · by_cases h : k' = k₀
      · subst h
        simp [aset, alookup, h0, Ne.symm h0]
      · simp [aset, alookup, h0, h, Ne.symm h, ih]

theorem alookup_dpop (d : Dict) (k k' : String) :
    alookup (dpop d k) k' = if k' = k then none else alookup d k' := by
  induction d with
  | nil => by_cases h : k' = k <;> simp [dpop, alookup, h]
  | cons p rest ih =>
    obtain ⟨k₀, v₀⟩ := p
    by_cases h0 : k₀ = k
    · subst h0
      have hd : dpop ((k₀, v₀) :: rest) k₀ = dpop rest k₀ := by simp [dpop]
      rw [hd, ih]
      by_cases h : k' = k₀
      · simp [h]
      · simp [alookup, h, Ne.symm h]
    · have hd : dpop ((k₀, v₀) :: rest) k = (k₀, v₀) :: dpop rest k := by
        simp [dpop, h0]
      rw [hd]
      by_cases h : k' = k₀
      · subst h
        simp [alookup, h0]
      · simp [alookup, h, Ne.symm h, ih]

/-- Where each field of a merged entry comes from, read off the `aset`
chain of `upEntry`. -/
theorem alookup_upEntry (now : String) (r d i v idt g p : PVal) (e : Dict) (k : String) :
    alookup (upEntry now r d i v idt g p e) k =
      if k = "install_date" ∧ idt.truthy = true then some idt
      else if k = "version" ∧ v.truthy = true then some v
      else if k = "last_update_date" then some (.ps now)
      else if k = "provides" then some (if p = .null then .plist [] else p)
      else if k = "groups" then some (if g = .null then .plist [] else g)
      else if k = "dependencies" then some d
      else if k = "repo" then some r
      else if k = "installed" then some i
      else alookup e k := by
  by_cases hv : v.truthy = true <;> by_cases hi : idt.truthy = true <;>
    simp [upEntry, hv, hi, alookup_aset]

/-! ## C1 — policy bands -/

/-- Claim C1: the policy evaluation is a total function of the stored
last-full-update timestamp and the current time.  An absent or malformed
stored timestamp yields must-update = true; otherwise exactly one band
applies for every integer day-age, with inclusive lower bounds evaluated
from the largest threshold downward: age ≥ 90 is must-update = true with a
"Critical" message carrying the day count, 30 ≤ age < 90 is false
"Warning", 7 ≤ age < 30 is false "Recommended", and age < 7 is false
"Recent" — one message per evaluation in every case. -/
theorem checkUpdatePolicy_bands :
    checkUpdatePolicy none = (true, "No previous update found") ∧
    checkUpdatePolicy (some none) = (true, "Invalid last update date format") ∧
    ∀ d : Int,
      (90 ≤ d → checkUpdatePolicy (some (some d)) =
        (true, "Critical: " ++ toString d ++ " days since last update")) ∧
      (30 ≤ d → d < 90 → checkUpdatePolicy (some (some d)) =
        (false, "Warning: " ++ toString d ++ " days since last update")) ∧
      (7 ≤ d → d < 30 → checkUpdatePolicy (some (some d)) =
        (false, "Recommended: " ++ toString d ++ " days since last update")) ∧
      (d < 7 → checkUpdatePolicy (some (some d)) =
        (false, "Recent: " ++ toString d ++ " days since last update")) := by
  refine ⟨rfl, rfl, fun d => ⟨fun h => ?_, fun h1 h2 => ?_, fun h1 h2 => ?_, fun h => ?_⟩⟩
  · rw [checkUpdatePolicy, if_pos (by omega)]
  · rw [checkUpdatePolicy, if_neg (by omega), if_pos (by omega)]
  · rw [checkUpdatePolicy, if_neg (by omega), if_neg (by omega), if_pos (by omega)]
  · rw [checkUpdatePolicy, if_neg (by omega), if_neg (by omega), if_neg (by omega)]

theorem checkUpdatePolicy_bands_witness :
    checkUpdatePolicy (some (some 95)) =
      (true, "Critical: " ++ toString (95 : Int) ++ " days since last update") :=
  (checkUpdatePolicy_bands.2.2 95).1 (by decide)

/-! ## Store-operation lemmas -/

theorem addPackage_present (now : String) (db : DB) (name : String)
    (repo deps installed version installDate groups provides : PVal) (pkg : Dict)
    (h : alookup db.packages name = some pkg) :
    alookup (addPackage now db name repo deps installed version installDate groups provides).packages
        name
      = some (upEntry now repo deps installed version installDate groups provides pkg) := by
  simp [addPackage, h, alookup_aset]

theorem addPackage_absent (now : String) (db : DB) (name : String)
    (repo deps installed version installDate groups provides : PVal)
    (h : alookup db.packages name = none) :
    alookup (addPackage now db name repo deps installed version installDate groups provides).packages
        name
      = some (newEntry now name repo deps installed version installDate groups provides) := by
  simp [addPackage, h, alookup_aset]

theorem addPackage_frame (now : String) (db : DB) (name : String)
    (repo deps installed version installDate groups provides : PVal) (n : String)
    (hne : n ≠ name) :
    alookup (addPackage now db name repo deps installed version installDate groups provides).packages
        n
      = alookup db.packages n := by
  rcases hdb : alookup db.packages name with _ | pkg <;>
    simp [addPackage, hdb, alookup_aset, hne]

theorem setInstalled_present (now : String) (db : DB) (name : String) (b : Bool) (pkg : Dict)
    (h : alookup db.packages name = some pkg) :
    setInstalled now db name b
      = ⟨aset db.packages name (aset (aset pkg "installed" (.pb b)) "last_update_date" (.ps now)),
         db.metadata⟩ := by
  simp [setInstalled, h]

/-! ## C3 — double upsert -/

/-- Claim C3: re-upserting a present entry with identical arguments leaves every
field of the entry unchanged except `last_update_date`, which is replaced
by the second call's clock stamp (so it strictly advances whenever the
wall clock renders distinct stamps for the two calls). -/
theorem upsert_twice_idempotent_except_stamp (db : DB) (name : String)
    (repo deps installed version installDate groups provides : PVal)
    (now1 now2 : String) (pkg0 : Dict)
    (h : alookup db.packages name = some pkg0) :
    ∃ e1 e2,
      alookup (addPackage now1 db name repo deps installed version installDate groups
        provides).packages name = some e1 ∧
      alookup (addPackage now2 (addPackage now1 db name repo deps installed version installDate
        groups provides) name repo deps installed version installDate groups
        provides).packages name = some e2 ∧
      alookup e1 "last_update_date" = some (.ps now1) ∧
      alookup e2 "last_update_date" = some (.ps now2) ∧
      (now1 ≠ now2 → alookup e2 "last_update_date" ≠ alookup e1 "last_update_date") ∧
      (∀ k, k ≠ "last_update_date" → alookup e2 k = alookup e1 k) := by
  have l1 := addPackage_present now1 db name repo deps installed version installDate groups
    provides pkg0 h
  have l2 := addPackage_present now2 _ name repo deps installed version installDate groups
    provides _ l1
  refine ⟨_, _, l1, l2, ?_, ?_, ?_, ?_⟩
  · rw [alookup_upEntry]; simp
  · rw [alookup_upEntry]; simp
  · intro hne
    rw [alookup_upEntry, alookup_upEntry]
    simp [Ne.symm hne]
  · intro k hk
    rw [alookup_upEntry, alookup_upEntry]
    split_ifs <;> simp_all

theorem upsert_twice_idempotent_except_stamp_witness :
    ∃ e1 e2,
      alookup (addPackage "A" sampleDB "htop" (.ps "core") (.plist ["ncurses"]) (.pb true)
        (.ps "3.2.2") (.ps "") (.plist []) (.plist [])).packages "htop" = some e1 ∧
      alookup (addPackage "B" (addPackage "A" sampleDB "htop" (.ps "core") (.plist ["ncurses"])
        (.pb true) (.ps "3.2.2") (.ps "") (.plist []) (.plist [])) "htop" (.ps "core")
        (.plist ["ncurses"]) (.pb true) (.ps "3.2.2") (.ps "") (.plist [])
        (.plist [])).packages "htop" = some e2 ∧
      alookup e1 "last_update_date" = some (.ps "A") ∧
      alookup e2 "last_update_date" = some (.ps "B") ∧
      ("A" ≠ "B" → alookup e2 "last_update_date" ≠ alookup e1 "last_update_date") ∧
      (∀ k, k ≠ "last_update_date" → alookup e2 k = alookup e1 k) :=
  upsert_twice_idempotent_except_stamp sampleDB "htop" (.ps "core") (.plist ["ncurses"])
    (.pb true) (.ps "3.2.2") (.ps "") (.plist []) (.plist []) "A" "B" sampleHtop (by decide)

/-! ## C4 — absent name is a no-op -/

/-- Claim C4: `set_installed` and `add_version_history` on a name absent from
the store leave the store completely unchanged; in particular no entry is
created for that name. -/
theorem absent_name_noop (now : String) (db : DB) (name : String) (b : Bool) (v : String)
    (h : alookup db.packages name = none) :
    setInstalled now db name b = db ∧ addVersionHistory now db name v = some db := by
  constructor
  · simp [setInstalled, h]
  · simp [addVersionHistory, h]

theorem absent_name_noop_witness :
    setInstalled "T" emptyDB "ghost" false = emptyDB ∧
    addVersionHistory "T" emptyDB "ghost" "1.0" = some emptyDB :=
  absent_name_noop "T" emptyDB "ghost" false "1.0" (by decide)

/-! ## C5 — uninstall retains the entry -/

/-- Claim C5: a successful uninstall of an installed entry keeps the entry in
the store, flips `installed` to false, stamps `last_update_date`, and
leaves `update_history`, every other field, and every other entry
unchanged. -/
theorem uninstall_keeps_entry (now : String) (dryrun removeOk : Bool) (db : DB)
    (name : String) (pkg : Dict)
    (hp : alookup db.packages name = some pkg)
    (_hinst : alookup pkg "installed" = some (.pb true))
    (hok : (cmdUninstall now dryrun removeOk db name).1 = true) :
    ∃ pkg',
      alookup (cmdUninstall now dryrun removeOk db name).2.packages name = some pkg' ∧
      alookup pkg' "installed" = some (.pb false) ∧
      alookup pkg' "last_update_date" = some (.ps now) ∧
      alookup pkg' "update_history" = alookup pkg "update_history" ∧
      (∀ k, k ≠ "installed" → k ≠ "last_update_date" → alookup pkg' k = alookup pkg k) ∧
      (∀ n, n ≠ name →
        alookup (cmdUninstall now dryrun removeOk db name).2.packages n
          = alookup db.packages n) := by
  have hres : cmdUninstall now dryrun removeOk db name = (true, setInstalled now db name false) := by
    by_cases hs : (if dryrun then true else removeOk) = true
    · simp [cmdUninstall, hs]
    · simp [cmdUninstall, hs] at hok
  refine ⟨aset (aset pkg "installed" (.pb false)) "last_update_date" (.ps now),
    ?_, ?_, ?_, ?_, ?_, ?_⟩
  · rw [hres, setInstalled_present now db name false pkg hp]
    simp [alookup_aset]
  · simp [alookup_aset]
  · simp [alookup_aset]
  · simp [alookup_aset]
  · intro k h1 h2
    simp [alookup_aset, h1, h2]
  · intro n hn
    rw [hres, setInstalled_present now db name false pkg hp]
    simp [alookup_aset, hn]

theorem uninstall_keeps_entry_witness :
    ∃ pkg',
      alookup (cmdUninstall "T" false true sampleDB "htop").2.packages "htop" = some pkg' ∧
      alookup pkg' "installed" = some (.pb false) ∧
      alookup pkg' "last_update_date" = some (.ps "T") ∧
      alookup pkg' "update_history" = alookup sampleHtop "update_history" ∧
      (∀ k, k ≠ "installed" → k ≠ "last_update_date" → alookup pkg' k = alookup sampleHtop k) ∧
      (∀ n, n ≠ "htop" →
        alookup (cmdUninstall "T" false true sampleDB "htop").2.packages n
          = alookup sampleDB.packages n) :=
  uninstall_keeps_entry "T" false true sampleDB "htop" sampleHtop (by decide) (by decide)
    (by decide)

/-! ## C10 — dry-run still writes the ledger -/

/-- Claim C10: dry-run mode is not free of record-store mutations.  A dry-run
uninstall of a present entry still persists `installed = false` for it,
and a dry-run update that is forced or policy-due still stamps
`metadata.last_full_update_date` with the current time. -/
theorem dryrun_writes_ledger :
    (∀ (now : String) (db : DB) (name : String) (pkg : Dict),
      alookup db.packages name = some pkg →
        (cmdUninstall now true false db name).1 = true ∧
        alookup (cmdUninstall now true false db name).2.packages name
          = some (aset (aset pkg "installed" (.pb false)) "last_update_date" (.ps now))) ∧
    (∀ (isoNorm : String → Option String) (now : String) (db : DB)
      (force interactive confirmYes : Bool) (parsedLast : Option (Option Int)),
      (force = true ∨ (checkUpdatePolicy parsedLast).1 = true) →
      isoNorm now = none →
        (cmdUpdate isoNorm now true force interactive parsedLast confirmYes false db).1 = true ∧
        alookup (cmdUpdate isoNorm now true force interactive parsedLast confirmYes
            false db).2.metadata "last_full_update_date"
          = some (.ps now)) := by
  constructor
  · intro now db name pkg hp
    have hres : cmdUninstall now true false db name = (true, setInstalled now db name false) := by
      simp [cmdUninstall]
    rw [hres, setInstalled_present now db name false pkg hp]
    exact ⟨rfl, by simp [alookup_aset]⟩
  · intro isoNorm now db force interactive confirmYes parsedLast hdue hnorm
    have hres : cmdUpdate isoNorm now true force interactive parsedLast confirmYes false db
        = (true, updateMetadata isoNorm db "last_full_update_date" (.ps now)) := by
      rcases hdue with hf | hp
      · simp [cmdUpdate, hf]
      · simp [cmdUpdate, hp]
    rw [hres]
    refine ⟨rfl, ?_⟩
    simp [updateMetadata, alookup_aset, hnorm]

theorem dryrun_writes_ledger_witness :
    ((cmdUninstall "T2" true false sampleDB "htop").1 = true ∧
      alookup (cmdUninstall "T2" true false sampleDB "htop").2.packages "htop"
        = some (aset (aset sampleHtop "installed" (.pb false)) "last_update_date" (.ps "T2"))) ∧
    ((cmdUpdate (fun _ => none) "T2" true true false none true false sampleDB).1 = true ∧
      alookup (cmdUpdate (fun _ => none) "T2" true true false none true false
          sampleDB).2.metadata "last_full_update_date"
        = some (.ps "T2")) :=
  ⟨dryrun_writes_ledger.1 "T2" sampleDB "htop" sampleHtop (by decide),
   dryrun_writes_ledger.2 (fun _ => none) "T2" sampleDB true false true none (Or.inl rfl) rfl⟩

/-! ## C6 — query semantics -/

theorem matchFilter_iff (x : Option PVal) (v : PVal) :
    (match x with | some w => pyEq w v | none => true) = true ↔
      ∀ w, x = some w → pyEq w v = true := by
  cases x <;> simp

/-- Claim C6: `query_packages` returns exactly the entries for which every
filter key that is present in the entry holds a (Python-)equal value;
filters are AND-combined, and an entry lacking a filter key entirely is
never excluded by that filter. -/
theorem query_packages_spec (db : DB) (filters : List (String × PVal)) (n : String)
    (pkg : Dict) :
    (n, pkg) ∈ queryPackages db filters ↔
      ((n, pkg) ∈ db.packages ∧
        ∀ kv ∈ filters, ∀ w, alookup pkg kv.1 = some w → pyEq w kv.2 = true) := by
  simp [queryPackages, List.mem_filter, List.all_eq_true, matchFilter_iff]

theorem query_packages_spec_witness :
    ("yay-bin", sampleAur) ∈ queryDB.packages ∧
    ∀ kv ∈ ([("installed", PVal.pb true), ("repo", PVal.ps "aur")] : List (String × PVal)),
      ∀ w, alookup sampleAur kv.1 = some w → pyEq w kv.2 = true :=
  (query_packages_spec queryDB [("installed", PVal.pb true), ("repo", PVal.ps "aur")]
    "yay-bin" sampleAur).mp (by decide)

/-! ## C8 — version-qualifier stripping -/

theorem headBefore_single (c : Char) (s : List Char) :
    headBefore [c] s = s.takeWhile (fun a => !(a == c)) := by
  induction s with
  | nil => rfl
  | cons a t ih =>
    by_cases h : a = c
    · subst h
      simp [headBefore, List.isPrefixOf, List.takeWhile_cons]
    · simp [headBefore, List.isPrefixOf, List.takeWhile_cons, h, Ne.symm h, ih]

theorem takeWhile_headBefore (p : Char → Bool) (d : Char) (tl s : List Char)
    (hd : p d = false) :
    (headBefore (d :: tl) s).takeWhile p = s.takeWhile p := by
  induction s with
  | nil => rfl
  | cons a t ih =>
    by_cases h : (d :: tl).isPrefixOf (a :: t) = true
    · have ha : d = a := by
        have h' := h
        simp [List.isPrefixOf, Bool.and_eq_true, beq_iff_eq] at h'
        exact h'.1
      subst ha
      simp [headBefore, h, List.takeWhile_cons, hd]
    · simp only [headBefore, h, if_false, Bool.false_eq_true, ite_false]
      by_cases hpa : p a = true
      · simp [List.takeWhile_cons, hpa, ih]
      · simp [List.takeWhile_cons, hpa]

theorem takeWhile_comp (p q : Char → Bool) (s : List Char) :
    (s.takeWhile q).takeWhile p = s.takeWhile (fun a => q a && p a) := by
  induction s with
  | nil => rfl
  | cons a t ih =>
    by_cases hq : q a = true <;> by_cases hp : p a = true <;>
      simp [List.takeWhile_cons, hq, hp, ih]

theorem takeWhile_ext (p q : Char → Bool) (h : ∀ a, p a = q a) (s : List Char) :
    s.takeWhile p = s.takeWhile q := by
  induction s with
  | nil => rfl
  | cons a t ih => rw [List.takeWhile_cons, List.takeWhile_cons, h a, ih]

/-- The five-way split chain keeps exactly the prefix before the first
version-range decoration character. -/
theorem stripChars_takeWhile (s : List Char) : stripChars s = s.takeWhile isBareChar := by
  unfold stripChars
  rw [headBefore_single, headBefore_single, headBefore_single, takeWhile_comp, takeWhile_comp]
  rw [takeWhile_headBefore _ '<' _ _ (by decide), takeWhile_headBefore _ '>' _ _ (by decide)]
  exact takeWhile_ext _ _ (fun a => by simp [isBareChar, Bool.and_assoc]) s

/-- Claim C8: every dependency / group / provide token scraped from the
external tool is stored as the bare name before the first `>=`, `<=`,
`=`, `>` or `<` decoration; in particular `"foo>=1.2"` and `"foo"` map to
the same stored identifier `"foo"`, and every identifier the parsers
store is free of decoration characters. -/
theorem strip_version_qualifier_spec :
    (∀ s : String, stripVersionQualifier s = ⟨s.data.takeWhile isBareChar⟩) ∧
    stripVersionQualifier "foo>=1.2" = "foo" ∧
    stripVersionQualifier "foo" = "foo" ∧
    (∀ s t, t ∈ parseDependsField s → ∀ c ∈ t.data, isBareChar c = true) ∧
    (∀ s t, t ∈ parseGroupsField s → ∀ c ∈ t.data, isBareChar c = true) := by
  have hmain : ∀ s : String, stripVersionQualifier s = ⟨s.data.takeWhile isBareChar⟩ := by
    intro s
    unfold stripVersionQualifier
    exact congrArg _ (stripChars_takeWhile s.data)
  refine ⟨hmain, by decide, by decide, ?_, ?_⟩
  · intro s t ht c hc
    rcases List.mem_map.mp ht with ⟨u, hu, rfl⟩
    rw [hmain u] at hc
    exact List.mem_takeWhile_imp hc
  · intro s t ht c hc
    simp only [parseGroupsField] at ht
    split at ht
    · rcases List.mem_map.mp ht with ⟨u, hu, rfl⟩
      rw [hmain u] at hc
      exact List.mem_takeWhile_imp hc
    · exact absurd ht (List.not_mem_nil t)

theorem strip_version_qualifier_spec_witness :
    stripVersionQualifier "foo>=1.2" = stripVersionQualifier "foo" := by
  rw [strip_version_qualifier_spec.2.1, strip_version_qualifier_spec.2.2.1]

/-! ## C7 — import contract -/

theorem keysIn_dict (d : Dict) (ks : List String) :
    keysIn (.dict d) ks = some (ks.all fun k => dhas d k) := by
  induction ks with
  | nil => rfl
  | cons k ks ih =>
    cases h : dhas d k with
    | false => simp [keysIn, entryHasKey, h]
    | true => simp [keysIn, entryHasKey, h, ih]

theorem checkAllKeys_dict (d : Dict) :
    checkAllKeys (.dict d) = some (requiredKeys.all fun k => dhas d k) :=
  keysIn_dict d requiredKeys

/-- Whenever no entry makes the loop raise — no entry where the five-key
membership test itself raises `TypeError`, and no non-mapping entry
passing all five tests (whose `.get` would raise `AttributeError`) — the
whole loop completes, upserting exactly the entries that pass the
five-key test and counting them; every entry failing the test is
skipped. -/
theorem importEntries_completes (now : String) (l : List (String × IEntry)) (db : DB) (cnt : Nat)
    (h : ∀ p ∈ l, checkAllKeys p.2 ≠ none ∧
      (checkAllKeys p.2 = some true → isDictEntry p.2 = true)) :
    importEntries now l db cnt =
      (true,
       (l.filter fun p => entryRequiredOk p.2).foldl (importOne now) db,
       cnt + (l.filter fun p => entryRequiredOk p.2).length) := by
  induction l generalizing db cnt with
  | nil => simp [importEntries]
  | cons p rest ih =>
    have hrest : ∀ q ∈ rest, checkAllKeys q.2 ≠ none ∧
        (checkAllKeys q.2 = some true → isDictEntry q.2 = true) :=
      fun q hq => h q (by simp [hq])
    obtain ⟨hnn, hdd⟩ := h p (by simp)
    cases hck : checkAllKeys p.2 with
    | none => exact absurd hck hnn
    | some b =>
      cases b with
      | false =>
        have hro : entryRequiredOk p.2 = false := by
          simp [entryRequiredOk, hck]
        have hstep : importEntries now (p :: rest) db cnt = importEntries now rest db cnt := by
          simp only [importEntries]
          rw [hck]
        rw [hstep, ih db cnt hrest]
        simp [List.filter_cons, hro]
      | true =>
        obtain ⟨d, hd⟩ : ∃ d, p.2 = IEntry.dict d := by
          have hid := hdd hck
          cases hp2 : p.2 with
          | dict d => exact ⟨d, rfl⟩
          | scalar v =>
            rw [hp2] at hid
            exact absurd hid (by simp [isDictEntry])
        have hro : entryRequiredOk p.2 = true := by
          simp [entryRequiredOk, hck]
        have hfc : (p :: rest).filter (fun p => entryRequiredOk p.2)
            = p :: rest.filter (fun p => entryRequiredOk p.2) := by
          simp [List.filter_cons, hro]
        have hstep : importEntries now (p :: rest) db cnt
            = importEntries now rest (importOne now db p) (cnt + 1) := by
          simp only [importEntries]
          rw [hck, hd]
        rw [hstep, ih (importOne now db p) (cnt + 1) hrest, hfc]
        simp [List.foldl_cons]
        omega

/-- Claim C7 (amended): import rejects the whole file — reported failure,
no mutation — when the top-level value is not an object or its `packages`
field is missing or not a mapping.  The per-entry loop upserts exactly
the mapping entries carrying all five of `repo`, `installed`,
`dependencies`, `groups`, `provides`; every entry for which the five-key
membership test evaluates to false — a mapping missing a required field,
but also a string or list entry not containing all five keys — is
skipped with a logged warning; the reported count equals the number of
upserted entries.  The import instead aborts with a reported failure,
keeping earlier upserts, at an entry where the membership test raises
`TypeError` (`None`/number/boolean entries) or at a non-mapping entry
that passes all five tests, whose `.get` raises `AttributeError` — see
the counterexample. -/
theorem import_contract :
    (∀ now db, cmdImport now db .topNonDict = (false, db, 0)) ∧
    (∀ now db, cmdImport now db .noPackages = (false, db, 0)) ∧
    (∀ now db v, cmdImport now db (.packagesNonDict v) = (false, db, 0)) ∧
    (∀ now db entries,
      (∀ p ∈ entries, checkAllKeys p.2 ≠ none ∧
        (checkAllKeys p.2 = some true → isDictEntry p.2 = true)) →
      cmdImport now db (.packages entries) =
        (true,
         (entries.filter fun p => entryRequiredOk p.2).foldl (importOne now) db,
         (entries.filter fun p => entryRequiredOk p.2).length)) := by
  refine ⟨fun _ _ => rfl, fun _ _ => rfl, fun _ _ _ => rfl, fun now db entries h => ?_⟩
  have := importEntries_completes now entries db 0 h
  simpa [cmdImport] using this

theorem import_contract_witness :
    cmdImport "T" emptyDB (.packages [("goodpkg", IEntry.dict importFull),
        ("badpkg", IEntry.dict importNoGroups)]) =
      (true,
       ([("goodpkg", IEntry.dict importFull), ("badpkg", IEntry.dict importNoGroups)].filter
         fun p => entryRequiredOk p.2).foldl (importOne "T") emptyDB,
       ([("goodpkg", IEntry.dict importFull), ("badpkg", IEntry.dict importNoGroups)].filter
         fun p => entryRequiredOk p.2).length) ∧
    ([("goodpkg", IEntry.dict importFull), ("badpkg", IEntry.dict importNoGroups)].filter
      fun p => entryRequiredOk p.2).length = 1 ∧
    (cmdImport "T" emptyDB (.packages [("goodpkg", IEntry.dict importFull),
        ("badpkg", IEntry.dict importNoGroups)])).2.2 = 1 ∧
    cmdImport "T" emptyDB (.packages [("strpkg", IEntry.scalar (.ps "hello"))]) =
      (true,
       ([("strpkg", IEntry.scalar (PVal.ps "hello"))].filter
         fun p => entryRequiredOk p.2).foldl (importOne "T") emptyDB,
       ([("strpkg", IEntry.scalar (PVal.ps "hello"))].filter
         fun p => entryRequiredOk p.2).length) ∧
    cmdImport "T" emptyDB (.packages [("strpkg", IEntry.scalar (.ps "hello"))])
      = (true, emptyDB, 0) :=
  ⟨import_contract.2.2.2 "T" emptyDB _ (by decide), by decide, by decide,
   import_contract.2.2.2 "T" emptyDB _ (by decide), by decide⟩

/-- The claim's "skips it with a logged warning otherwise" fails for an
entry value on which the membership test raises: `"repo" in None` raises
`TypeError`, the `except` handler reports failure, and no count is
printed — here on a one-entry file the result is reported failure with
nothing imported, where the claim demands a successful import of zero
entries.  (Non-mapping string/list entries failing the test are merely
skipped — that case is covered by `import_contract` — so only the raising
entries force the amendment.) -/
theorem import_nonmapping_entry_aborts :
    cmdImport "T" emptyDB (.packages [("weird", IEntry.scalar PVal.null)])
      = (false, emptyDB, 0) := by decide

/-! ## C2 — export / import round trip -/

theorem importEntries_frame (now : String) (l : List (String × IEntry)) (db : DB) (cnt : Nat)
    (n : String) (hn : ∀ p ∈ l, p.1 ≠ n) :
    alookup (importEntries now l db cnt).2.1.packages n = alookup db.packages n := by
  induction l generalizing db cnt with
  | nil => rfl
  | cons p rest ih =>
    have hp : p.1 ≠ n := hn p (by simp)
    have hrest : ∀ q ∈ rest, q.1 ≠ n := fun q hq => hn q (by simp [hq])
    cases hok : checkAllKeys p.2 with
    | none =>
      have hstep : importEntries now (p :: rest) db cnt = (false, db, cnt) := by
        simp only [importEntries]; rw [hok]
      rw [hstep]
    | some b =>
      cases b with
      | false =>
        have hstep : importEntries now (p :: rest) db cnt = importEntries now rest db cnt := by
          simp only [importEntries]; rw [hok]
        rw [hstep]
        exact ih db cnt hrest
      | true =>
        cases hp2 : p.2 with
        | dict d =>
          have hstep : importEntries now (p :: rest) db cnt
              = importEntries now rest (importOne now db p) (cnt + 1) := by
            simp only [importEntries]; rw [hok, hp2]
          have himp : importOne now db p
              = addPackage now db p.1 (dgetD d "repo" (.ps "unknown"))
                  (dgetD d "dependencies" (.plist [])) (dgetD d "installed" (.pb false))
                  (dgetD d "version" (.ps "")) (dgetD d "install_date" (.ps ""))
                  (dgetD d "groups" (.plist [])) (dgetD d "provides" (.plist [])) := by
            simp only [importOne]; rw [hp2]
          rw [hstep, ih (importOne now db p) (cnt + 1) hrest, himp]
          exact addPackage_frame now db p.1 _ _ _ _ _ _ _ n (Ne.symm hp)
        | scalar v =>
          have hstep : importEntries now (p :: rest) db cnt = (false, db, cnt) := by
            simp only [importEntries]; rw [hok, hp2]
          rw [hstep]

/-- Importing object entries with fresh, distinct names into a store
creates for each its `add_package` fresh-entry literal. -/
theorem importEntries_lookup (now : String) (l : List (String × IEntry)) (db : DB) (cnt : Nat)
    (hnodup : (l.map Prod.fst).Nodup)
    (habs : ∀ p ∈ l, alookup db.packages p.1 = none)
    (hreq : ∀ p ∈ l, entryRequiredOk p.2 = true)
    (hdict : ∀ p ∈ l, isDictEntry p.2 = true) :
    ∀ p ∈ l, ∀ d, p.2 = IEntry.dict d →
      alookup (importEntries now l db cnt).2.1.packages p.1
        = some (newEntry now p.1 (dgetD d "repo" (.ps "unknown"))
            (dgetD d "dependencies" (.plist [])) (dgetD d "installed" (.pb false))
            (dgetD d "version" (.ps "")) (dgetD d "install_date" (.ps ""))
            (dgetD d "groups" (.plist [])) (dgetD d "provides" (.plist []))) := by
  induction l generalizing db cnt with
  | nil =>
    intro p hp
    exact absurd hp (List.not_mem_nil p)
  | cons q rest ih =>
    intro p hp d hpd
    have hnodup' := hnodup
    simp only [List.map_cons, List.nodup_cons] at hnodup'
    obtain ⟨hqnot, hnd⟩ := hnodup'
    have hne : ∀ r ∈ rest, r.1 ≠ q.1 := by
      intro r hr hcon
      exact hqnot (hcon ▸ List.mem_map_of_mem Prod.fst hr)
    obtain ⟨e, hq2⟩ : ∃ e, q.2 = IEntry.dict e := by
      cases hq : q.2 with
      | dict e => exact ⟨e, rfl⟩
      | scalar v =>
        have := hdict q (by simp)
        rw [hq] at this
        exact absurd this (by simp [isDictEntry])
    have hckq : checkAllKeys q.2 = some true := by
      have h1 := hreq q (by simp)
      simpa [entryRequiredOk] using h1
    have hstep : importEntries now (q :: rest) db cnt
        = importEntries now rest (importOne now db q) (cnt + 1) := by
      simp only [importEntries]; rw [hckq, hq2]
    have himpq : importOne now db q
        = addPackage now db q.1 (dgetD e "repo" (.ps "unknown"))
            (dgetD e "dependencies" (.plist [])) (dgetD e "installed" (.pb false))
            (dgetD e "version" (.ps "")) (dgetD e "install_date" (.ps ""))
            (dgetD e "groups" (.plist [])) (dgetD e "provides" (.plist [])) := by
      simp only [importOne]; rw [hq2]
    rcases List.mem_cons.mp hp with hpq | hpr
    · subst hpq
      have hed : e = d := by
        injection (hq2.symm.trans hpd)
      subst hed
      rw [hstep, importEntries_frame now rest _ (cnt + 1) p.1 hne, himpq]
      exact addPackage_absent now db p.1 _ _ _ _ _ _ _ (habs p (by simp))
    · rw [hstep]
      refine ih (importOne now db q) (cnt + 1) hnd ?_ ?_ ?_ p hpr d hpd
      · intro r hr
        rw [himpq, addPackage_frame now db q.1 _ _ _ _ _ _ _ r.1 (hne r hr)]
        exact habs r (by simp [hr])
      · exact fun r hr => hreq r (by simp [hr])
      · exact fun r hr => hdict r (by simp [hr])

theorem isSomePb_spec (x : Option PVal) (h : isSomePb x = true) : ∃ b, x = some (.pb b) := by
  rcases x with _ | v
  · exact absurd h (by simp [isSomePb])
  · cases v with
    | pb b => exact ⟨b, rfl⟩
    | null => exact absurd h (by simp [isSomePb])
    | ps s => exact absurd h (by simp [isSomePb])
    | pi n => exact absurd h (by simp [isSomePb])
    | plist l => exact absurd h (by simp [isSomePb])
    | phist hh => exact absurd h (by simp [isSomePb])

theorem isSomePs_spec (x : Option PVal) (h : isSomePs x = true) : ∃ s, x = some (.ps s) := by
  rcases x with _ | v
  · exact absurd h (by simp [isSomePs])
  · cases v with
    | ps s => exact ⟨s, rfl⟩
    | null => exact absurd h (by simp [isSomePs])
    | pb b => exact absurd h (by simp [isSomePs])
    | pi n => exact absurd h (by simp [isSomePs])
    | plist l => exact absurd h (by simp [isSomePs])
    | phist hh => exact absurd h (by simp [isSomePs])

theorem isSomePlist_spec (x : Option PVal) (h : isSomePlist x = true) :
    ∃ l, x = some (.plist l) := by
  rcases x with _ | v
  · exact absurd h (by simp [isSomePlist])
  · cases v with
    | plist l => exact ⟨l, rfl⟩
    | null => exact absurd h (by simp [isSomePlist])
    | pb b => exact absurd h (by simp [isSomePlist])
    | ps s => exact absurd h (by simp [isSomePlist])
    | pi n => exact absurd h (by simp [isSomePlist])
    | phist hh => exact absurd h (by simp [isSomePlist])

theorem isSomePhist_spec (x : Option PVal) (h : isSomePhist x = true) :
    ∃ l, x = some (.phist l) := by
  rcases x with _ | v
  · exact absurd h (by simp [isSomePhist])
  · cases v with
    | phist l => exact ⟨l, rfl⟩
    | null => exact absurd h (by simp [isSomePhist])
    | pb b => exact absurd h (by simp [isSomePhist])
    | ps s => exact absurd h (by simp [isSomePhist])
    | pi n => exact absurd h (by simp [isSomePhist])
    | plist l => exact absurd h (by simp [isSomePhist])

theorem isSomeNonemptyPs_spec (x : Option PVal) (h : isSomeNonemptyPs x = true) :
    ∃ s, x = some (.ps s) ∧ s ≠ "" := by
  rcases x with _ | v
  · exact absurd h (by simp [isSomeNonemptyPs])
  · cases v with
    | ps s =>
      refine ⟨s, rfl, ?_⟩
      simpa [isSomeNonemptyPs] using h
    | null => exact absurd h (by simp [isSomeNonemptyPs])
    | pb b => exact absurd h (by simp [isSomeNonemptyPs])
    | pi n => exact absurd h (by simp [isSomeNonemptyPs])
    | plist l => exact absurd h (by simp [isSomeNonemptyPs])
    | phist hh => exact absurd h (by simp [isSomeNonemptyPs])

theorem wfEntry_fields (name : String) (d : Dict) (h : wfEntry name d = true) :
    alookup d "name" = some (.ps name) ∧
    (∃ b, alookup d "installed" = some (.pb b)) ∧
    (∃ s, alookup d "repo" = some (.ps s)) ∧
    (∃ l, alookup d "dependencies" = some (.plist l)) ∧
    (∃ l, alookup d "groups" = some (.plist l)) ∧
    (∃ l, alookup d "provides" = some (.plist l)) ∧
    (∃ s, alookup d "version" = some (.ps s)) ∧
    (∃ s, alookup d "install_date" = some (.ps s) ∧ s ≠ "") ∧
    (∃ l, alookup d "update_history" = some (.phist l)) ∧
    (∃ s, alookup d "last_update_date" = some (.ps s)) := by
  simp only [wfEntry, Bool.and_eq_true, decide_eq_true_eq] at h
  obtain ⟨⟨⟨⟨⟨⟨⟨⟨⟨h1, h2⟩, h3⟩, h4⟩, h5⟩, h6⟩, h7⟩, h8⟩, h9⟩, h10⟩ := h
  exact ⟨h1, isSomePb_spec _ h2, isSomePs_spec _ h3, isSomePlist_spec _ h4,
    isSomePlist_spec _ h5, isSomePlist_spec _ h6, isSomePs_spec _ h7,
    isSomeNonemptyPs_spec _ h8, isSomePhist_spec _ h9, isSomePs_spec _ h10⟩

/-- Claim C2 (amended): exporting without history and importing the document
into an empty store succeeds, imports every entry, and reconstructs the
`name`, `repo`, `installed`, `dependencies`, `groups`, `provides`,
`version` and `install_date` of every well-formed entry; `update_history`
is reset to empty (as the claim allows) and `last_update_date` is NOT
reconstructed — the import stamps it with the import-time clock. -/
theorem export_import_roundtrip (db : DB) (now : String)
    (hnodup : (db.packages.map Prod.fst).Nodup)
    (hwf : ∀ p ∈ db.packages, wfEntry p.1 p.2 = true) :
    (roundTripImport now db).1 = true ∧
    (roundTripImport now db).2.2 = db.packages.length ∧
    ∀ p ∈ db.packages, ∃ d',
      alookup (roundTripImport now db).2.1.packages p.1 = some d' ∧
      alookup d' "name" = alookup p.2 "name" ∧
      alookup d' "installed" = alookup p.2 "installed" ∧
      alookup d' "repo" = alookup p.2 "repo" ∧
      alookup d' "dependencies" = alookup p.2 "dependencies" ∧
      alookup d' "groups" = alookup p.2 "groups" ∧
      alookup d' "provides" = alookup p.2 "provides" ∧
      alookup d' "version" = alookup p.2 "version" ∧
      alookup d' "install_date" = alookup p.2 "install_date" ∧
      alookup d' "update_history" = some (.phist []) ∧
      alookup d' "last_update_date" = some (.ps now) := by
  have hl : iEntriesOfExport (exportData db false).packages
      = db.packages.map (fun p => (p.1, IEntry.dict (dpop p.2 "update_history"))) := by
    simp [iEntriesOfExport, exportData, List.map_map, Function.comp]
  have hrt : roundTripImport now db
      = importEntries now
          (db.packages.map fun p => (p.1, IEntry.dict (dpop p.2 "update_history"))) emptyDB 0 := by
    rw [roundTripImport, hl]
    rfl
  have hdict : ∀ q ∈ db.packages.map (fun p => (p.1, IEntry.dict (dpop p.2 "update_history"))),
      isDictEntry q.2 = true := by
    intro q hq
    rcases List.mem_map.mp hq with ⟨p, hp, rfl⟩
    rfl
  have hreq : ∀ q ∈ db.packages.map (fun p => (p.1, IEntry.dict (dpop p.2 "update_history"))),
      entryRequiredOk q.2 = true := by
    intro q hq
    rcases List.mem_map.mp hq with ⟨p, hp, rfl⟩
    obtain ⟨-, ⟨b, hb⟩, ⟨r, hr⟩, ⟨dl, hdl⟩, ⟨g, hg⟩, ⟨pv, hpv⟩, -⟩ :=
      wfEntry_fields p.1 p.2 (hwf p hp)
    simp [entryRequiredOk, checkAllKeys_dict, requiredKeys, List.all_cons, dhas,
      alookup_dpop, hb, hr, hdl, hg, hpv]
  have habs : ∀ q ∈ db.packages.map (fun p => (p.1, IEntry.dict (dpop p.2 "update_history"))),
      alookup emptyDB.packages q.1 = none := fun q _ => rfl
  have hfst : (db.packages.map
        (fun p => (p.1, IEntry.dict (dpop p.2 "update_history")))).map Prod.fst
      = db.packages.map Prod.fst := by
    simp [List.map_map, Function.comp]
  have hnd : ((db.packages.map
      (fun p => (p.1, IEntry.dict (dpop p.2 "update_history")))).map Prod.fst).Nodup := by
    rw [hfst]; exact hnodup
  have hcomp : ∀ q ∈ db.packages.map (fun p => (p.1, IEntry.dict (dpop p.2 "update_history"))),
      checkAllKeys q.2 ≠ none ∧ (checkAllKeys q.2 = some true → isDictEntry q.2 = true) := by
    intro q hq
    rcases List.mem_map.mp hq with ⟨p, hp, rfl⟩
    exact ⟨by simp [checkAllKeys_dict], fun _ => rfl⟩
  have hall := importEntries_completes now
    (db.packages.map fun p => (p.1, IEntry.dict (dpop p.2 "update_history"))) emptyDB 0 hcomp
  have hfilter : (db.packages.map
        (fun p => (p.1, IEntry.dict (dpop p.2 "update_history")))).filter
        (fun p => entryRequiredOk p.2)
      = db.packages.map fun p => (p.1, IEntry.dict (dpop p.2 "update_history")) :=
    List.filter_eq_self.mpr hreq
  refine ⟨?_, ?_, ?_⟩
  · rw [hrt, hall]
  · rw [hrt, hall]
    simp [hfilter]
  · intro p hp
    have hqmem : (p.1, IEntry.dict (dpop p.2 "update_history"))
        ∈ db.packages.map fun p => (p.1, IEntry.dict (dpop p.2 "update_history")) := by
      exact List.mem_map_of_mem _ hp
    have hlook := importEntries_lookup now
      (db.packages.map fun p => (p.1, IEntry.dict (dpop p.2 "update_history"))) emptyDB 0
      hnd habs hreq hdict (p.1, IEntry.dict (dpop p.2 "update_history")) hqmem
      (dpop p.2 "update_history") rfl
    obtain ⟨h1, ⟨b, hb⟩, ⟨r, hr⟩, ⟨dl, hdl⟩, ⟨g, hg⟩, ⟨pv, hpv⟩, ⟨vs, hvs⟩, ⟨ins, hins, hins0⟩,
      ⟨uh, huh⟩, ⟨lu, hlu⟩⟩ := wfEntry_fields p.1 p.2 (hwf p hp)
    refine ⟨_, by rw [hrt]; exact hlook, ?_, ?_, ?_, ?_, ?_, ?_, ?_, ?_, ?_, ?_⟩
    · rw [h1]; simp [newEntry, alookup]
    · rw [hb]; simp [newEntry, alookup, dgetD, alookup_dpop, hb]
    · rw [hr]; simp [newEntry, alookup, dgetD, alookup_dpop, hr]
    · rw [hdl]; simp [newEntry, alookup, dgetD, alookup_dpop, hdl]
    · rw [hg]; simp [newEntry, alookup, dgetD, alookup_dpop, hg]
    · rw [hpv]; simp [newEntry, alookup, dgetD, alookup_dpop, hpv]
    · rw [hvs]; simp [newEntry, alookup, dgetD, alookup_dpop, hvs]
    · rw [hins]; simp [newEntry, alookup, dgetD, alookup_dpop, hins, PVal.truthy, hins0]
    · simp [newEntry, alookup]
    · simp [newEntry, alookup]

theorem export_import_roundtrip_witness :
    (roundTripImport "Y" sampleDB).1 = true ∧
    (roundTripImport "Y" sampleDB).2.2 = sampleDB.packages.length ∧
    ∀ p ∈ sampleDB.packages, ∃ d',
      alookup (roundTripImport "Y" sampleDB).2.1.packages p.1 = some d' ∧
      alookup d' "name" = alookup p.2 "name" ∧
      alookup d' "installed" = alookup p.2 "installed" ∧
      alookup d' "repo" = alookup p.2 "repo" ∧
      alookup d' "dependencies" = alookup p.2 "dependencies" ∧
      alookup d' "groups" = alookup p.2 "groups" ∧
      alookup d' "provides" = alookup p.2 "provides" ∧
      alookup d' "version" = alookup p.2 "version" ∧
      alookup d' "install_date" = alookup p.2 "install_date" ∧
      alookup d' "update_history" = some (.phist []) ∧
      alookup d' "last_update_date" = some (.ps "Y") :=
  export_import_roundtrip sampleDB "Y" (by decide) (by decide)

/-- The round trip does NOT reconstruct `last_update_date`: importing the
exported document stamps the entry with the import-time clock ("Y"),
not the stored value — refuting the claim's inclusion of
`last_update_date` among the reconstructed fields. -/
theorem roundtrip_last_update_restamped :
    (alookup (roundTripImport "Y" sampleDB).2.1.packages "htop").bind
        (fun d => alookup d "last_update_date")
      = some (.ps "Y") ∧
    alookup sampleHtop "last_update_date" = some (.ps "Mon 01 Jan 2024 10:00:00 AM") ∧
    PVal.ps "Y" ≠ PVal.ps "Mon 01 Jan 2024 10:00:00 AM" := by decide

/-! ## C9 — loading never fails (absent / unparsable file) -/

/-- Claim C9 (amended): an absent backing file is answered with the default
document (empty package map, null metadata), and content that fails JSON
parsing is caught, logged and answered with that same empty default; but
corrupt content that parses to the wrong shape can still raise (see the
counterexample). -/
theorem load_recovers_missing_and_unparsable (isoNorm : String → Option String) :
    dbLoad isoNorm .absent = some defaultDoc ∧
    dbLoad isoNorm .unparsable = some defaultDoc ∧
    defaultDoc
      = ⟨some (.mapping []), some (.mapping [("last_full_update_date", PVal.null)])⟩ :=
  ⟨rfl, rfl, rfl⟩

/-- Valid JSON that is not an object — e.g. a top-level array — raises
`AttributeError` at `data.get("packages", {})`, which `_load`'s
`except (json.JSONDecodeError, FileNotFoundError)` does not catch: the
program fails instead of receiving the empty default, refuting "for every
corrupt file content ... returns that same empty default instead of
raising". -/
theorem load_raises_on_nondict_json :
    dbLoad (fun _ => none) LoadedFile.topNonDict = none := rfl

end Pacwrap
